import Mathlib

/-!
Shallow embedding of the contact-manager core from `src/task1_2.py`
(classes `Field`/`Name`/`Phone`/`Birthday`/`Record`/`AddressBook`).

Modelling conventions:
* Python strings are Lean `String`s; character-level work is done on
  `String.data : List Char`.
* A raised `ValueError` is modelled with `Except PyErr` (or `Option` where
  only success/failure matters); an exception propagating out of a method
  makes the whole call produce `.error`/`none`, and, since the Python code
  raises before any mutation, the pre-state is unchanged.
* `Phone`/`Name` wrappers store the raw string (`Field.value`), so a
  `Record`'s `phones` is a `List String` and its `name` a `String`.
* Python `date` objects are triples `(year, month, day)`; `date` ordering
  is chronological, i.e. ordering of `date.toordinal()`, embedded below as
  `ordinal`.  `d.replace(year := y)` re-validates and raises for an
  impossible result (Feb 29 in a non-leap year), embedded as an `Option`.
-/

namespace Task12

/-- Error taxonomy of the source: `Phone.__init__` raises a `ValueError`
for a malformed phone, `Birthday.validate_birthday` raises a `ValueError`
for a malformed date string. -/
inductive PyErr where
  | invalidPhoneFormat
  | invalidDateFormat
deriving DecidableEq, Repr

/-! ### Digits as Python's `re` module sees them

Python 3 `re` on `str` patterns matches `\d` against every Unicode
character of category Nd (decimal digit), not only ASCII `0-9`.  Every Nd
block is a run of ten consecutive code points whose digit values are
0,...,9 from the start of the run; `ndStarts` lists the first code point of
each run (Unicode 15.0, as shipped with CPython 3.12). -/
def ndStarts : List Nat :=
  [0x30, 0x660, 0x6F0, 0x7C0, 0x966, 0x9E6, 0xA66, 0xAE6, 0xB66, 0xBE6,
   0xC66, 0xCE6, 0xD66, 0xDE6, 0xE50, 0xED0, 0xF20, 0x1040, 0x1090,
   0x17E0, 0x1810, 0x1946, 0x19D0, 0x1A80, 0x1A90, 0x1B50, 0x1BB0,
   0x1C40, 0x1C50, 0xA620, 0xA8D0, 0xA900, 0xA9D0, 0xA9F0, 0xAA50,
   0xABF0, 0xFF10, 0x104A0, 0x10D30, 0x11066, 0x110F0, 0x11136, 0x111D0,
   0x112F0, 0x11450, 0x114D0, 0x11650, 0x116C0, 0x11730, 0x118E0,
   0x11950, 0x11C50, 0x11D50, 0x11DA0, 0x11F50, 0x16A60, 0x16AC0,
   0x16B50, 0x1D7CE, 0x1D7D8, 0x1D7E2, 0x1D7EC, 0x1D7F6, 0x1E140,
   0x1E2F0, 0x1E4F0, 0x1E950, 0x1FBF0]

/-- What Python's `\d` accepts: a Unicode decimal digit (category Nd). -/
def isPyDigit (c : Char) : Bool :=
  ndStarts.any fun s => s ≤ c.toNat && c.toNat < s + 10

/-- An ASCII decimal digit `0-9` (the reading the spec gives to `\d`). -/
def isAsciiDigit (c : Char) : Bool :=
  0x30 ≤ c.toNat && c.toNat ≤ 0x39

/-- Digit value of a Unicode decimal digit (what Python's `int()` uses when
converting a matched group); 0 for non-digits. -/
def pyDigitVal (c : Char) : Nat :=
  match ndStarts.find? (fun s => s ≤ c.toNat && c.toNat < s + 10) with
  | some s => c.toNat - s
  | none => 0

/-- Numeric value of a digit string, most significant first (`int(...)` on
a matched group). -/
def digitsVal (l : List Char) : Nat :=
  l.foldl (fun acc c => acc * 10 + pyDigitVal c) 0

/-- Model of `re.fullmatch` of the pattern `\d{n}`: the whole character list is
exactly `n` characters, each matching `\d`. -/
def fullmatchDigits : Nat → List Char → Bool
  | 0, [] => true
  | 0, _ :: _ => false
  | _ + 1, [] => false
  | n + 1, c :: cs => isPyDigit c && fullmatchDigits n cs

/-- Source `Phone.validate_phone(value)`: `re.fullmatch(r"\d{10}", value)`
(truthiness of the match object rendered as `Bool`). -/
def validate_phone (s : String) : Bool :=
  fullmatchDigits 10 s.data

/-! ### Python `datetime.date` -/

/-- A Python `datetime.date` value: a year/month/day triple.  Objects built
by the source always satisfy `validDate`. -/
structure PyDate where
  year : Nat
  month : Nat
  day : Nat
deriving DecidableEq, Repr

/-- Gregorian leap-year rule, as `calendar.isleap` / `datetime` use it. -/
def isLeap (y : Nat) : Bool :=
  y % 4 == 0 && (y % 100 != 0 || y % 400 == 0)

/-- Length of month `m` (1-12) in year `y`. -/
def daysInMonth (y m : Nat) : Nat :=
  if m == 2 then (if isLeap y then 29 else 28)
  else if m == 4 || m == 6 || m == 9 || m == 11 then 30
  else 31

/-- The triples `datetime.date(y, m, d)` accepts (`MINYEAR = 1`,
`MAXYEAR = 9999`). -/
def validDate (y m d : Nat) : Bool :=
  1 ≤ y && y ≤ 9999 && 1 ≤ m && m ≤ 12 && 1 ≤ d && d ≤ daysInMonth y m

/-- Days in the months strictly before month `m` of year `y`. -/
def daysBeforeMonth (y m : Nat) : Nat :=
  (List.range (m - 1)).foldl (fun acc i => acc + daysInMonth y (i + 1)) 0

/-- Python `date.toordinal()`: day count with 0001-01-01 as day 1.  Python
compares `date`s chronologically, i.e. by this ordinal. -/
def ordinal (d : PyDate) : Nat :=
  365 * (d.year - 1) + ((d.year - 1) / 4 - (d.year - 1) / 100)
    + (d.year - 1) / 400 + daysBeforeMonth d.year d.month + d.day

/-- Python `a < b` on dates. -/
def dateLt (a b : PyDate) : Bool :=
  decide (ordinal a < ordinal b)

/-- Python `a <= b` on dates. -/
def dateLe (a b : PyDate) : Bool :=
  decide (ordinal a ≤ ordinal b)

/-- Python `d.replace(year := y)`: keeps month and day, re-validates, and raises
`ValueError` (here `none`) when the result is not a real date — the Feb 29
case on a non-leap target year. -/
def replaceYear (d : PyDate) (y : Nat) : Option PyDate :=
  if validDate y d.month d.day then some ⟨y, d.month, d.day⟩ else none

/-- Zero-pad a number to two digits (`strftime` `%d` / `%m`). -/
def pad2 (n : Nat) : String :=
  if n < 10 then "0" ++ toString n else toString n

/-- Pad a year to four digits (`strftime` `%Y` for the four-digit years the
program produces). -/
def pad4 (n : Nat) : String :=
  if n < 10 then "000" ++ toString n
  else if n < 100 then "00" ++ toString n
  else if n < 1000 then "0" ++ toString n
  else toString n

/-- Python `d.strftime('%d.%m.%Y')`. -/
def formatDMY (d : PyDate) : String :=
  pad2 d.day ++ "." ++ pad2 d.month ++ "." ++ pad4 d.year

/-! ### `Birthday.validate_birthday`

The source parses with `datetime.datetime.strptime(value, "%d.%m.%Y")`.
CPython's `_strptime` compiles the format to the regular expression
`(3[01]|[12]\d|0[1-9]|[1-9])\.(1[0-2]|0[1-9]|[1-9])\.(\d\d\d\d)` and
requires it to consume the whole input; the matched groups go through
`int()` and then `datetime.date(year, month, day)`, which raises for an
impossible calendar date.  Note the day and month may be one or two
digits — zero-padding is not required — while the year is exactly four
digits.  The literal character classes (`[01]`, `[1-9]`, ...) are ASCII;
only `\d` also accepts non-ASCII decimal digits. -/

/-- Split at every `.`: first group, then the later groups. -/
def splitDotsAux : List Char → List Char × List (List Char)
  | [] => ([], [])
  | c :: cs =>
    if c = '.' then ([], (splitDotsAux cs).1 :: (splitDotsAux cs).2)
    else (c :: (splitDotsAux cs).1, (splitDotsAux cs).2)

/-- Split a character list at every `.` (the field separators of the
compiled `strptime` pattern). -/
def splitDots (cs : List Char) : List (List Char) :=
  (splitDotsAux cs).1 :: (splitDotsAux cs).2

/-- The day group `3[01]|[12]\d|0[1-9]|[1-9]` of the compiled pattern. -/
def matchesDayTok (t : List Char) : Bool :=
  match t with
  | [c] => 0x31 ≤ c.toNat && c.toNat ≤ 0x39
  | [a, b] =>
    (a = '3' && (b = '0' || b = '1'))
      || ((a = '1' || a = '2') && isPyDigit b)
      || (a = '0' && 0x31 ≤ b.toNat && b.toNat ≤ 0x39)
  | _ => false

/-- The month group `1[0-2]|0[1-9]|[1-9]` of the compiled pattern. -/
def matchesMonthTok (t : List Char) : Bool :=
  match t with
  | [c] => 0x31 ≤ c.toNat && c.toNat ≤ 0x39
  | [a, b] =>
    (a = '1' && (b = '0' || b = '1' || b = '2'))
      || (a = '0' && 0x31 ≤ b.toNat && b.toNat ≤ 0x39)
  | _ => false

/-- The year group `\d\d\d\d`: exactly four decimal digits. -/
def matchesYearTok (t : List Char) : Bool :=
  t.length == 4 && t.all isPyDigit

/-- Source `Birthday.validate_birthday(value)`: `strptime(value, "%d.%m.%Y")`
followed by `.date()`; any `ValueError` is re-raised as the
`"Birthday must be in DD.MM.YYYY format"` error. -/
def validate_birthday (s : String) : Except PyErr PyDate :=
  match splitDots s.data with
  | [d, m, y] =>
    if matchesDayTok d && matchesMonthTok m && matchesYearTok y then
      if validDate (digitsVal y) (digitsVal m) (digitsVal d) then
        Except.ok ⟨digitsVal y, digitsVal m, digitsVal d⟩
      else Except.error PyErr.invalidDateFormat
    else Except.error PyErr.invalidDateFormat
  | _ => Except.error PyErr.invalidDateFormat

/-- Rebuild the input from the groups after the first: a `.` before each
group. -/
def joinDots : List (List Char) → List Char
  | [] => []
  | g :: gs => '.' :: (g ++ joinDots gs)

/-- The strict zero-padded pattern the spec describes.  Modelled from the
spec's words (claim C4, spec section 3): exactly two digits for the day,
a dot, exactly two digits for the month, a dot, four digits for the year,
all ASCII, naming a real calendar date.  Used only to compare against the
source-derived `validate_birthday`. -/
def specStrictDDMMYYYY (s : String) : Bool :=
  match s.data with
  | [d1, d2, c1, m1, m2, c2, y1, y2, y3, y4] =>
    c1 = '.' && c2 = '.'
      && [d1, d2, m1, m2, y1, y2, y3, y4].all isAsciiDigit
      && validDate
        (digitsVal [y1, y2, y3, y4]) (digitsVal [m1, m2]) (digitsVal [d1, d2])
  | _ => false

/-- Declarative characterization of the strings `strptime(s, "%d.%m.%Y")`
accepts: a day group, a dot, a month group, a dot, a four-digit year
group, the three groups naming a real calendar date.  Day and month may be
one or two digits (zero-padding optional). -/
def lenientDMY (s : String) : Prop :=
  ∃ d m y : List Char,
    s.data = d ++ '.' :: (m ++ '.' :: y) ∧
    matchesDayTok d = true ∧ matchesMonthTok m = true ∧ matchesYearTok y = true ∧
    validDate (digitsVal y) (digitsVal m) (digitsVal d) = true

/-! ### `Record` -/

/-- A `Record`: `name` is the string held by the `Name` wrapper (the
`Name` class adds no validation), `phones` the list of strings held by the
`Phone` wrappers, `birthday` the `date` held by the `Birthday` wrapper, or
`none`. -/
structure Record where
  name : String
  phones : List String
  birthday : Option PyDate
deriving DecidableEq, Repr

/-- Constructor `Phone(value)`: validates at construction, raising `ValueError` for a
malformed value; a constructed `Phone` holds the raw string. -/
def Phone.make (s : String) : Except PyErr String :=
  if validate_phone s then Except.ok s else Except.error PyErr.invalidPhoneFormat

/-- Constructor `Record.__init__(name, birthday=None)`: stores `Name(name)` with no
validation; `birthday` is parsed only when truthy (so `None` and the empty
string both give no birthday), and a parse failure propagates, leaving no
record constructed. -/
def Record.make (name : String) (birthday : Option String) : Except PyErr Record :=
  match birthday with
  | none => Except.ok ⟨name, [], none⟩
  | some bs =>
    if bs = "" then Except.ok ⟨name, [], none⟩
    else do
      let d ← validate_birthday bs
      Except.ok ⟨name, [], some d⟩

/-- Method `Record.add_phone(phone)`: `self.phones.append(Phone(phone))` — the
`Phone` constructor validates and raises before the append happens, so on
failure `phones` is untouched. -/
def add_phone (r : Record) (p : String) : Except PyErr Record :=
  match Phone.make p with
  | Except.ok p' => Except.ok { r with phones := r.phones ++ [p'] }
  | Except.error e => Except.error e

/-- The loop of `Record.edit_phone`: scan `phones` for the first element
equal to `old_phone`; assign `phone.value = new_phone` there (no
validation of `new_phone`) and stop with `True`, else `False`. -/
def editPhones : List String → String → String → Bool × List String
  | [], _, _ => (false, [])
  | p :: ps, oldPhone, newPhone =>
    if p = oldPhone then (true, newPhone :: ps)
    else
      let r := editPhones ps oldPhone newPhone
      (r.1, p :: r.2)

/-- Method `Record.edit_phone(old_phone, new_phone)`. -/
def edit_phone (r : Record) (oldPhone newPhone : String) : Bool × Record :=
  let e := editPhones r.phones oldPhone newPhone
  (e.1, { r with phones := e.2 })

/-- Method `Record.add_birthday(birthday)`: parses and overwrites `self.birthday`;
a parse failure propagates before assignment. -/
def add_birthday (r : Record) (bs : String) : Except PyErr Record :=
  match validate_birthday bs with
  | Except.ok d => Except.ok { r with birthday := some d }
  | Except.error e => Except.error e

/-! ### `AddressBook` -/

/-- An `AddressBook`: the `UserDict` mapping from name to record, kept as
its ordered list of key/value entries (Python dicts preserve insertion
order; keys are unique). -/
structure AddressBook where
  data : List (String × Record)
deriving DecidableEq, Repr

/-- Python `dict.__setitem__`: overwrite in place when the key is present,
append otherwise. -/
def dictInsert : List (String × Record) → String → Record → List (String × Record)
  | [], k, v => [(k, v)]
  | (k', v') :: rest, k, v =>
    if k' = k then (k, v) :: rest else (k', v') :: dictInsert rest k v

/-- Python `dict.get(name)`. -/
def dictGet : List (String × Record) → String → Option Record
  | [], _ => none
  | (k, v) :: rest, n => if k = n then some v else dictGet rest n

/-- Python `del dict[name]` (the key is present exactly once in a dict). -/
def dictRemove : List (String × Record) → String → List (String × Record)
  | [], _ => []
  | (k, v) :: rest, n => if k = n then rest else (k, v) :: dictRemove rest n

/-- Method `AddressBook.add_record(record)`: `self.data[record.name.value] = record`. -/
def add_record (bk : AddressBook) (r : Record) : AddressBook :=
  ⟨dictInsert bk.data r.name r⟩

/-- Method `AddressBook.find_record(name)`: `self.data.get(name)`. -/
def find_record (bk : AddressBook) (n : String) : Option Record :=
  dictGet bk.data n

/-- Method `AddressBook.delete(name)`: delete and return `True` when present,
else `False`; the book is returned alongside to make the state change
explicit. -/
def delete (bk : AddressBook) (n : String) : Bool × AddressBook :=
  match dictGet bk.data n with
  | some _ => (true, ⟨dictRemove bk.data n⟩)
  | none => (false, bk)

/-! ### `AddressBook.get_upcoming_birthdays`

The source fixes `today = datetime.date.today()`; following the spec's
interface (`upcoming_birthdays(book, today)`) the current date is passed
as a parameter.  The upper bound `this_year_birthday <= today +
timedelta(days=7)` is chronological comparison against the date seven days
after `today`, i.e. `ordinal this_year_birthday <= ordinal today + 7`. -/

/-- The year-adjustment step of the loop body:
`this_year_birthday = record.birthday.value.replace(year=today.year)`,
rolled forward to `today.year + 1` when strictly before `today`.  Either
`replace` can raise (`none`). -/
def adjustBirthday (today b : PyDate) : Option PyDate :=
  match replaceYear b today.year with
  | none => none
  | some ty => if dateLt ty today then replaceYear ty (today.year + 1) else some ty

/-- The window test
`today <= this_year_birthday <= today + datetime.timedelta(days=7)`. -/
def withinWeek (today adj : PyDate) : Bool :=
  dateLe today adj && decide (ordinal adj ≤ ordinal today + 7)

/-- The `for name, record in self.data.items()` loop: collects
`(name, this_year_birthday.strftime('%d.%m.%Y'))` for the records whose
adjusted birthday falls in the window; a `ValueError` from `replace`
aborts the whole call (`none`). -/
def collectUpcoming (today : PyDate) : List (String × Record) → Option (List (String × String))
  | [] => some []
  | (n, r) :: rest =>
    match r.birthday with
    | none => collectUpcoming today rest
    | some b =>
      match adjustBirthday today b with
      | none => none
      | some adj =>
        match collectUpcoming today rest with
        | none => none
        | some res =>
          if withinWeek today adj then some ((n, formatDMY adj) :: res)
          else some res

/-- Method `AddressBook.get_upcoming_birthdays()`. -/
def get_upcoming_birthdays (bk : AddressBook) (today : PyDate) : Option (List (String × String)) :=
  collectUpcoming today bk.data

/-- State-passing form of the same method: the loop threads the book
through each iteration; the body only reads `self.data` and local
variables (it assigns to no attribute of `self` or of any record), so
every step — including an aborting `ValueError` — passes the book on
unchanged. -/
def upcomingLoop (today : PyDate) : List (String × Record) → AddressBook → Option (List (String × String)) × AddressBook
  | [], bk => (some [], bk)
  | (n, r) :: rest, bk =>
    match r.birthday with
    | none => upcomingLoop today rest bk
    | some b =>
      match adjustBirthday today b with
      | none => (none, bk)
      | some adj =>
        match upcomingLoop today rest bk with
        | (none, bk') => (none, bk')
        | (some res, bk') =>
          if withinWeek today adj then (some ((n, formatDMY adj) :: res), bk')
          else (some res, bk')

/-- Method `get_upcoming_birthdays` as a state transformer: result plus the book
state after the call. -/
def get_upcoming_birthdays_run (bk : AddressBook) (today : PyDate) : Option (List (String × String)) × AddressBook :=
  upcomingLoop today bk.data bk

/-! ## Helper lemmas -/

theorem fullmatchDigits_iff (n : Nat) (l : List Char) :
    fullmatchDigits n l = true ↔ l.length = n ∧ ∀ c ∈ l, isPyDigit c = true := by
  induction l generalizing n with
  | nil => cases n <;> simp [fullmatchDigits]
  | cons c cs ih =>
    cases n with
    | zero => simp [fullmatchDigits]
    | succ m =>
      simp only [fullmatchDigits, Bool.and_eq_true, ih, List.length_cons,
        List.mem_cons, Nat.succ_inj]
      constructor
      · rintro ⟨h1, h2, h3⟩
        exact ⟨h2, fun x hx => hx.elim (fun e => e ▸ h1) (h3 x)⟩
      · rintro ⟨h1, h2⟩
        exact ⟨h2 c (Or.inl rfl), h1, fun x hx => h2 x (Or.inr hx)⟩

/-! ## C3 — `validate_phone` -/

/-- C3 counterexample: the claim reads `\d` as ASCII digits, but the
source's `re.fullmatch(r"\d{10}", value)` also accepts non-ASCII Unicode
decimal digits: ten Arabic-Indic digits pass `validate_phone` although
none of the characters is an ASCII digit. -/
theorem validate_phone_ascii_counterexample :
    validate_phone "٠١٢٣٤٥٦٧٨٩" = true ∧
      "٠١٢٣٤٥٦٧٨٩".data.all isAsciiDigit = false := by decide

/-- C3 amended: `validate_phone s` is true iff `s` is exactly 10
characters long and every character is a Unicode decimal digit (category
Nd, what Python's `\d` matches) — not only ASCII digits; there is no
normalization or stripping of separators. -/
theorem validate_phone_amended (s : String) :
    validate_phone s = true ↔
      s.data.length = 10 ∧ ∀ c ∈ s.data, isPyDigit c = true :=
  fullmatchDigits_iff 10 s.data

/-! ## C4 — `validate_birthday` -/

theorem splitDotsAux_join (cs : List Char) :
    cs = (splitDotsAux cs).1 ++ joinDots (splitDotsAux cs).2 := by
  induction cs with
  | nil => rfl
  | cons c cs ih =>
    by_cases h : c = '.'
    · subst h
      simp only [splitDotsAux, if_pos rfl, joinDots, List.nil_append]
      exact congrArg (List.cons '.') ih
    · simp only [splitDotsAux, if_neg h, List.cons_append]
      exact congrArg (List.cons c) ih

theorem splitDotsAux_no_dot {a : List Char} (h : '.' ∉ a) : splitDotsAux a = (a, []) := by
  induction a with
  | nil => rfl
  | cons c cs ih =>
    simp only [List.mem_cons, not_or] at h
    have hc : ¬c = '.' := fun e => h.1 e.symm
    simp only [splitDotsAux, if_neg hc]
    rw [ih h.2]

theorem splitDotsAux_append {a : List Char} (rest : List Char) (h : '.' ∉ a) :
    splitDotsAux (a ++ '.' :: rest)
      = (a, (splitDotsAux rest).1 :: (splitDotsAux rest).2) := by
  induction a with
  | nil => simp [splitDotsAux]
  | cons c cs ih =>
    simp only [List.mem_cons, not_or] at h
    have hc : ¬c = '.' := fun e => h.1 e.symm
    show splitDotsAux (c :: (cs ++ '.' :: rest)) = _
    simp only [splitDotsAux, if_neg hc]
    rw [ih h.2]

theorem splitDots_of_groups {d m y : List Char} (hd : '.' ∉ d) (hm : '.' ∉ m)
    (hy : '.' ∉ y) : splitDots (d ++ '.' :: (m ++ '.' :: y)) = [d, m, y] := by
  show (splitDotsAux (d ++ '.' :: (m ++ '.' :: y))).1
      :: (splitDotsAux (d ++ '.' :: (m ++ '.' :: y))).2 = [d, m, y]
  rw [splitDotsAux_append (m ++ '.' :: y) hd, splitDotsAux_append y hm,
    splitDotsAux_no_dot hy]

theorem isPyDigit_ne_dot {c : Char} (h : isPyDigit c = true) : c ≠ '.' := by
  rintro rfl
  exact absurd h (by decide)

theorem no_dot_of_digits {l : List Char} (h : ∀ c ∈ l, isPyDigit c = true) :
    '.' ∉ l :=
  fun hm => isPyDigit_ne_dot (h _ hm) rfl

theorem isPyDigit_of_ascii {c : Char} (h1 : 0x30 ≤ c.toNat) (h2 : c.toNat ≤ 0x39) :
    isPyDigit c = true := by
  simp only [isPyDigit, ndStarts, List.any_cons, List.any_nil, Bool.or_eq_true,
    Bool.and_eq_true, decide_eq_true_eq, Bool.or_false]
  exact Or.inl ⟨h1, by omega⟩

theorem dayTok_digits {d : List Char} (h : matchesDayTok d = true) :
    ∀ c ∈ d, isPyDigit c = true := by
  match d with
  | [] => simp [matchesDayTok] at h
  | [c] =>
    simp only [matchesDayTok, Bool.and_eq_true, decide_eq_true_eq] at h
    intro x hx
    rw [List.mem_singleton] at hx
    subst hx
    exact isPyDigit_of_ascii (by omega) (by omega)
  | [a, b] =>
    simp only [matchesDayTok, Bool.or_eq_true, Bool.and_eq_true,
      decide_eq_true_eq] at h
    intro x hx
    rw [List.mem_cons, List.mem_singleton] at hx
    rcases h with (⟨ha, hb⟩ | ⟨ha, hb⟩) | ⟨⟨ha, hb1⟩, hb2⟩
    · rcases hx with rfl | rfl
      · rw [ha]; decide
      · rcases hb with rfl | rfl <;> decide
    · rcases hx with rfl | rfl
      · rcases ha with rfl | rfl <;> decide
      · exact hb
    · rcases hx with rfl | rfl
      · rw [ha]; decide
      · exact isPyDigit_of_ascii (by omega) (by omega)
  | _ :: _ :: _ :: _ => simp [matchesDayTok] at h

theorem monthTok_digits {m : List Char} (h : matchesMonthTok m = true) :
    ∀ c ∈ m, isPyDigit c = true := by
  match m with
  | [] => simp [matchesMonthTok] at h
  | [c] =>
    simp only [matchesMonthTok, Bool.and_eq_true, decide_eq_true_eq] at h
    intro x hx
    rw [List.mem_singleton] at hx
    subst hx
    exact isPyDigit_of_ascii (by omega) (by omega)
  | [a, b] =>
    simp only [matchesMonthTok, Bool.or_eq_true, Bool.and_eq_true,
      decide_eq_true_eq] at h
    intro x hx
    rw [List.mem_cons, List.mem_singleton] at hx
    rcases h with ⟨ha, hb⟩ | ⟨⟨ha, hb1⟩, hb2⟩
    · rcases hx with rfl | rfl
      · rw [ha]; decide
      · rcases hb with (rfl | rfl) | rfl <;> decide
    · rcases hx with rfl | rfl
      · rw [ha]; decide
      · exact isPyDigit_of_ascii (by omega) (by omega)
  | _ :: _ :: _ :: _ => simp [matchesMonthTok] at h

theorem yearTok_digits {y : List Char} (h : matchesYearTok y = true) :
    ∀ c ∈ y, isPyDigit c = true := by
  simp only [matchesYearTok, Bool.and_eq_true, List.all_eq_true] at h
  exact h.2

/-- C4 counterexample: the claim requires a zero-padded two-digit day, but
`strptime(value, "%d.%m.%Y")` also accepts a one-digit day: `"1.01.2020"`
parses to January 1st, 2020 although it does not match the strict
`DD.MM.YYYY` pattern the spec describes. -/
theorem validate_birthday_strict_counterexample :
    validate_birthday "1.01.2020" = Except.ok ⟨2020, 1, 1⟩ ∧
      specStrictDDMMYYYY "1.01.2020" = false :=
  ⟨rfl, rfl⟩

/-- C4 amended: `validate_birthday s` succeeds exactly when `s` is a day
group, a dot, a month group, a dot and a four-digit year group naming a
real calendar date, where the day and month may be one or two digits —
zero-padding is accepted but not required.  `"29.02.2021"` still fails
(2021 is not a leap year) and `"29.02.2020"` still succeeds; a failure is
an error, never a stored value. -/
theorem validate_birthday_amended :
    (∀ s : String, (∃ dt, validate_birthday s = Except.ok dt) ↔ lenientDMY s) ∧
    validate_birthday "29.02.2021" = Except.error PyErr.invalidDateFormat ∧
    validate_birthday "29.02.2020" = Except.ok ⟨2020, 2, 29⟩ := by
  refine ⟨fun s => ⟨?_, ?_⟩, rfl, rfl⟩
  · rintro ⟨dt, h⟩
    unfold validate_birthday at h
    split at h
    case h_2 => exact absurd h (by simp)
    case h_1 d m y heq =>
      split at h
      case isFalse => exact absurd h (by simp)
      case isTrue htok =>
        split at h
        case isFalse => exact absurd h (by simp)
        case isTrue hvd =>
          simp only [Bool.and_eq_true] at htok
          obtain ⟨e1, e2⟩ : (splitDotsAux s.data).1 = d ∧ (splitDotsAux s.data).2 = [m, y] := by
            have := heq
            simp only [splitDots, List.cons.injEq] at this
            exact this
          refine ⟨d, m, y, ?_, htok.1.1, htok.1.2, htok.2, hvd⟩
          have hj := splitDotsAux_join s.data
          rw [e1, e2] at hj
          simpa [joinDots] using hj
  · rintro ⟨d, m, y, hs, hd, hm, hy, hvd⟩
    have hsplit : splitDots s.data = [d, m, y] := by
      rw [hs]
      exact splitDots_of_groups (no_dot_of_digits (dayTok_digits hd))
        (no_dot_of_digits (monthTok_digits hm))
        (no_dot_of_digits (yearTok_digits hy))
    refine ⟨⟨digitsVal y, digitsVal m, digitsVal d⟩, ?_⟩
    unfold validate_birthday
    rw [hsplit]
    simp [hd, hm, hy, hvd]

/-! ## C1 — `edit_phone` -/

theorem editPhones_not_mem {ps : List String} {o : String} (nw : String)
    (h : o ∉ ps) : editPhones ps o nw = (false, ps) := by
  induction ps with
  | nil => rfl
  | cons p ps ih =>
    simp only [List.mem_cons, not_or] at h
    have hp : ¬p = o := fun e => h.1 e.symm
    simp only [editPhones, if_neg hp]
    rw [ih h.2]

theorem editPhones_mem {ps : List String} {o : String} (nw : String) (h : o ∈ ps) :
    ∃ pre post, ps = pre ++ o :: post ∧ o ∉ pre ∧
      editPhones ps o nw = (true, pre ++ nw :: post) := by
  induction ps with
  | nil => cases h
  | cons p ps ih =>
    by_cases hp : p = o
    · subst hp
      exact ⟨[], ps, rfl, by simp, by simp [editPhones]⟩
    · have hmem : o ∈ ps := by
        rcases List.mem_cons.mp h with rfl | hm
        · exact absurd rfl hp
        · exact hm
      obtain ⟨pre, post, he, hnp, hed⟩ := ih hmem
      refine ⟨p :: pre, post, by simp [he], ?_, ?_⟩
      · simp only [List.mem_cons, not_or]
        exact ⟨fun e => hp e.symm, hnp⟩
      · simp only [editPhones, if_neg hp, hed, List.cons_append]

/-- C1 counterexample: the claim says that when `old` is stored and `new`
is malformed, `edit_phone` raises `InvalidPhoneFormat` and leaves `phones`
unchanged; the source's `Record.edit_phone` never validates `new_phone` —
it assigns the raw value to the matching `Phone` and returns `True`, so a
malformed `"abc"` replaces a stored phone with no error. -/
theorem edit_phone_claim_counterexample :
    validate_phone "abc" = false ∧
      edit_phone ⟨"Ann", ["1234567890"], none⟩ "1234567890" "abc"
        = (true, ⟨"Ann", ["abc"], none⟩) := by
  exact ⟨rfl, rfl⟩

/-- C1 amended: `edit_phone record old new` returns `false` and leaves the
phones sequence unchanged when no stored phone equals `old`; when some
stored phone equals `old` it replaces the first matching phone in place
with `new` and returns `true` without validating `new` — a malformed `new`
is stored as-is and no error is raised. -/
theorem edit_phone_amended (r : Record) (oldPhone newPhone : String) :
    (oldPhone ∉ r.phones → edit_phone r oldPhone newPhone = (false, r)) ∧
    (oldPhone ∈ r.phones →
      ∃ pre post, r.phones = pre ++ oldPhone :: post ∧ oldPhone ∉ pre ∧
        edit_phone r oldPhone newPhone
          = (true, { r with phones := pre ++ newPhone :: post })) := by
  constructor
  · intro h
    simp [edit_phone, editPhones_not_mem newPhone h]
  · intro h
    obtain ⟨pre, post, he, hnp, hed⟩ := editPhones_mem newPhone h
    exact ⟨pre, post, he, hnp, by simp [edit_phone, hed]⟩

theorem edit_phone_amended_witness :
    (edit_phone ⟨"Ann", ["0123456789"], none⟩ "9999999999" "0000000000"
        = (false, ⟨"Ann", ["0123456789"], none⟩)) ∧
    (∃ pre post,
        (Record.mk "Bob" ["0123456789", "1111111111"] none).phones
            = pre ++ "1111111111" :: post ∧
        "1111111111" ∉ pre ∧
        edit_phone ⟨"Bob", ["0123456789", "1111111111"], none⟩ "1111111111" "2222222222"
          = (true, { Record.mk "Bob" ["0123456789", "1111111111"] none with
                      phones := pre ++ "2222222222" :: post })) :=
  ⟨(edit_phone_amended _ _ _).1 (by simp),
   (edit_phone_amended _ _ _).2 (by simp)⟩

/-! ## C6 — `add_phone` -/

/-- C6: `add_phone record value` validates `value`; a valid phone is
appended at the end of the phones sequence (no duplicate check — a value
already present is appended again); a malformed value fails with
`InvalidPhoneFormat`, and since `Phone(...)` raises before the `append`,
the phones sequence is exactly as before. -/
theorem add_phone_spec (r : Record) (p : String) :
    (validate_phone p = true →
      add_phone r p = Except.ok { r with phones := r.phones ++ [p] }) ∧
    (validate_phone p = false →
      add_phone r p = Except.error PyErr.invalidPhoneFormat) := by
  constructor <;> intro h <;> simp [add_phone, Phone.make, h]

theorem add_phone_spec_witness :
    add_phone ⟨"Ann", ["1111111111"], none⟩ "1111111111"
        = Except.ok ⟨"Ann", ["1111111111", "1111111111"], none⟩ ∧
    add_phone ⟨"Ann", ["1111111111"], none⟩ "123"
        = Except.error PyErr.invalidPhoneFormat :=
  ⟨(add_phone_spec ⟨"Ann", ["1111111111"], none⟩ "1111111111").1 (by decide),
   (add_phone_spec ⟨"Ann", ["1111111111"], none⟩ "123").2 (by decide)⟩

/-! ## C9 — `Name` / `Record` name validation -/

/-- C9 counterexample: the claim says every constructed `Record` has a
non-empty name; the source's `Name` class adds no validation (`pass`), so
`Record("")` constructs successfully and stores the empty string as its
name. -/
theorem record_empty_name_counterexample :
    Record.make "" none = Except.ok ⟨"", [], none⟩ ∧
      ("" : String).length = 0 :=
  ⟨rfl, rfl⟩

/-- C9 amended: `Record` stores the given name string exactly as passed —
the `Name` wrapper performs no validation at all, so any string, the empty
string included, is accepted as a name. -/
theorem record_name_amended (name : String) (birthday : Option String)
    (r : Record) (h : Record.make name birthday = Except.ok r) :
    r.name = name := by
  cases birthday with
  | none =>
    have h2 : Except.ok (Record.mk name [] none) = Except.ok r := h
    injection h2 with h2
    rw [← h2]
  | some bs =>
    by_cases hb : bs = ""
    · subst hb
      have h2 : Except.ok (Record.mk name [] none) = Except.ok r := h
      injection h2 with h2
      rw [← h2]
    · simp only [Record.make, if_neg hb] at h
      cases hv : validate_birthday bs with
      | ok d =>
        rw [hv] at h
        have h2 : Except.ok (Record.mk name [] (some d)) = Except.ok r := h
        injection h2 with h2
        rw [← h2]
      | error e =>
        rw [hv] at h
        exact Except.noConfusion h

theorem record_name_amended_witness :
    (Record.mk "" [] none).name = "" :=
  record_name_amended "" none (Record.mk "" [] none) rfl

/-! ## C7 — `add_record` / `find_record` round-trip -/

theorem dictGet_dictInsert (l : List (String × Record)) (k : String) (v : Record) :
    dictGet (dictInsert l k v) k = some v := by
  induction l with
  | nil =>
    show (if k = k then some v else dictGet [] k) = some v
    rw [if_pos rfl]
  | cons kv rest ih =>
    obtain ⟨k', v'⟩ := kv
    show dictGet (if k' = k then (k, v) :: rest else (k', v') :: dictInsert rest k v) k
        = some v
    by_cases h : k' = k
    · rw [if_pos h]
      show (if k = k then some v else dictGet rest k) = some v
      rw [if_pos rfl]
    · rw [if_neg h]
      show (if k' = k then some v' else dictGet (dictInsert rest k v) k) = some v
      rw [if_neg h]
      exact ih

/-- C7: inserting a record and looking its name up returns that very
record — in particular one with equal name, phones sequence and
birthday. -/
theorem add_find_roundtrip (bk : AddressBook) (r : Record) :
    find_record (add_record bk r) r.name = some r :=
  dictGet_dictInsert bk.data r.name r

/-! ## C8 — `delete` -/

theorem dictGet_eq_none_of_not_mem {l : List (String × Record)} {n : String}
    (h : n ∉ l.map Prod.fst) : dictGet l n = none := by
  induction l with
  | nil => rfl
  | cons kv rest ih =>
    obtain ⟨k, v⟩ := kv
    simp only [List.map_cons, List.mem_cons, not_or] at h
    have hk : ¬k = n := fun e => h.1 e.symm
    show (if k = n then some v else dictGet rest n) = none
    rw [if_neg hk]
    exact ih h.2

theorem dictRemove_eq_filter {l : List (String × Record)} {n : String}
    (hnd : (l.map Prod.fst).Nodup) :
    dictRemove l n = l.filter fun kv => decide (kv.1 ≠ n) := by
  induction l with
  | nil => rfl
  | cons kv rest ih =>
    obtain ⟨k, v⟩ := kv
    simp only [List.map_cons, List.nodup_cons] at hnd
    rw [List.filter_cons]
    by_cases h : k = n
    · subst h
      have hp : (decide ((k, v).1 ≠ k)) = false := by simp
      rw [hp]
      show (if k = k then rest else (k, v) :: dictRemove rest k) = _
      rw [if_pos rfl, if_neg (by simp)]
      symm
      rw [List.filter_eq_self]
      intro a ha
      simp only [ne_eq, decide_eq_true_eq]
      intro e
      exact hnd.1 (e ▸ List.mem_map_of_mem Prod.fst ha)
    · have hp : (decide ((k, v).1 ≠ n)) = true := by simp [h]
      rw [hp]
      show (if k = n then rest else (k, v) :: dictRemove rest n) = _
      rw [if_neg h, if_pos rfl, ih hnd.2]

theorem dictGet_dictRemove_self {l : List (String × Record)} {n : String}
    (hnd : (l.map Prod.fst).Nodup) : dictGet (dictRemove l n) n = none := by
  induction l with
  | nil => rfl
  | cons kv rest ih =>
    obtain ⟨k, v⟩ := kv
    simp only [List.map_cons, List.nodup_cons] at hnd
    show dictGet (if k = n then rest else (k, v) :: dictRemove rest n) n = none
    by_cases h : k = n
    · subst h
      rw [if_pos rfl]
      exact dictGet_eq_none_of_not_mem hnd.1
    · rw [if_neg h]
      show (if k = n then some v else dictGet (dictRemove rest n) n) = none
      rw [if_neg h]
      exact ih hnd.2

theorem dictGet_dictRemove_other (l : List (String × Record)) (n m : String)
    (hne : m ≠ n) : dictGet (dictRemove l n) m = dictGet l m := by
  induction l with
  | nil => rfl
  | cons kv rest ih =>
    obtain ⟨k, v⟩ := kv
    show dictGet (if k = n then rest else (k, v) :: dictRemove rest n) m
        = (if k = m then some v else dictGet rest m)
    by_cases h : k = n
    · subst h
      rw [if_pos rfl, if_neg (fun e => hne e.symm)]
    · rw [if_neg h]
      show (if k = m then some v else dictGet (dictRemove rest n) m)
          = (if k = m then some v else dictGet rest m)
      by_cases hm : k = m
      · rw [if_pos hm, if_pos hm]
      · rw [if_neg hm, if_neg hm]
        exact ih

/-- C8: on a name with no entry, `delete` returns `false` and the mapping
is completely unchanged; on a present name it returns `true`, exactly that
entry is removed (the data is the original list filtered at that key, so
every other entry is untouched and in place), lookup of the deleted name
now fails, and lookup of every other name is as before. -/
theorem delete_spec (bk : AddressBook) (n : String)
    (hnd : (bk.data.map Prod.fst).Nodup) :
    (find_record bk n = none → delete bk n = (false, bk)) ∧
    (∀ r, find_record bk n = some r →
      (delete bk n).1 = true ∧
      (delete bk n).2.data = bk.data.filter (fun kv => decide (kv.1 ≠ n)) ∧
      find_record (delete bk n).2 n = none ∧
      ∀ m, m ≠ n → find_record (delete bk n).2 m = find_record bk m) := by
  constructor
  · intro h
    have h' : dictGet bk.data n = none := h
    unfold delete
    rw [h']
  · intro r h
    have hd : delete bk n = (true, ⟨dictRemove bk.data n⟩) := by
      unfold delete
      rw [show dictGet bk.data n = some r from h]
    refine ⟨by rw [hd], ?_, ?_, ?_⟩
    · rw [hd]
      exact dictRemove_eq_filter hnd
    · rw [hd]
      exact dictGet_dictRemove_self hnd
    · intro m hm
      rw [hd]
      exact dictGet_dictRemove_other bk.data n m hm

theorem delete_spec_witness :
    (delete ⟨[("Ann", ⟨"Ann", [], none⟩)]⟩ "Zoe"
        = (false, ⟨[("Ann", ⟨"Ann", [], none⟩)]⟩)) ∧
    ((delete ⟨[("Ann", ⟨"Ann", [], none⟩), ("Bob", ⟨"Bob", [], none⟩)]⟩ "Ann").1 = true ∧
      (delete ⟨[("Ann", ⟨"Ann", [], none⟩), ("Bob", ⟨"Bob", [], none⟩)]⟩ "Ann").2.data
        = [("Ann", ⟨"Ann", [], none⟩), ("Bob", ⟨"Bob", [], none⟩)].filter
            (fun kv => decide (kv.1 ≠ "Ann")) ∧
      find_record (delete ⟨[("Ann", ⟨"Ann", [], none⟩), ("Bob", ⟨"Bob", [], none⟩)]⟩ "Ann").2 "Ann"
        = none ∧
      ∀ m, m ≠ "Ann" →
        find_record (delete ⟨[("Ann", ⟨"Ann", [], none⟩), ("Bob", ⟨"Bob", [], none⟩)]⟩ "Ann").2 m
          = find_record ⟨[("Ann", ⟨"Ann", [], none⟩), ("Bob", ⟨"Bob", [], none⟩)]⟩ m) :=
  ⟨(delete_spec ⟨[("Ann", ⟨"Ann", [], none⟩)]⟩ "Zoe" (by simp)).1 rfl,
   (delete_spec ⟨[("Ann", ⟨"Ann", [], none⟩), ("Bob", ⟨"Bob", [], none⟩)]⟩ "Ann"
      (by simp)).2 ⟨"Ann", [], none⟩ rfl⟩

/-! ## C5 — Feb 29 birthdays crash the birthday query -/

/-- C5: a record whose birthday is February 29 makes
`get_upcoming_birthdays` fail outright when the target year is not a leap
year: `birthday.replace(year=2021)` raises `ValueError` (here: the call
returns `none`, no result list), since the code defines no fallback for
this case. -/
theorem get_upcoming_birthdays_feb29_crash :
    get_upcoming_birthdays ⟨[("Lev", ⟨"Lev", [], some ⟨2020, 2, 29⟩⟩)]⟩ ⟨2021, 3, 15⟩
      = none :=
  rfl

/-! ## C10 — the birthday query mutates nothing -/

theorem upcomingLoop_eq (today : PyDate) (l : List (String × Record))
    (bk : AddressBook) :
    upcomingLoop today l bk = (collectUpcoming today l, bk) := by
  induction l with
  | nil => rfl
  | cons nr rest ih =>
    obtain ⟨n, r⟩ := nr
    cases hb : r.birthday with
    | none =>
      simp only [upcomingLoop, collectUpcoming, hb]
      exact ih
    | some b =>
      simp only [upcomingLoop, collectUpcoming, hb]
      cases hadj : adjustBirthday today b with
      | none => simp only [hadj]
      | some adj =>
        simp only [hadj, ih]
        cases hc : collectUpcoming today rest with
        | none => simp only [hc]
        | some res =>
          simp only [hc]
          by_cases h : withinWeek today adj = true
          · rw [if_pos h, if_pos h]
          · rw [if_neg h, if_neg h]

/-- C10: `get_upcoming_birthdays` is a pure query — in its state-passing
form the book after the call (the whole name-to-record mapping, hence
every record's name, phones and birthday) is exactly the book before, and
the produced value is the pure result. -/
theorem get_upcoming_birthdays_pure (bk : AddressBook) (today : PyDate) :
    get_upcoming_birthdays_run bk today = (get_upcoming_birthdays bk today, bk) :=
  upcomingLoop_eq today bk.data bk

/-! ## C2 — the seven-day birthday window -/

theorem collectUpcoming_names (today : PyDate) :
    ∀ (l : List (String × Record)) (res : List (String × String)) (n s : String),
      collectUpcoming today l = some res → (n, s) ∈ res → n ∈ l.map Prod.fst := by
  intro l
  induction l with
  | nil =>
    intro res n s h hm
    have h' : some ([] : List (String × String)) = some res := h
    injection h' with h'
    rw [← h'] at hm
    cases hm
  | cons nr rest ih =>
    obtain ⟨n', r⟩ := nr
    intro res n s h hm
    cases hb : r.birthday with
    | none =>
      simp only [collectUpcoming, hb] at h
      exact List.mem_cons_of_mem _ (ih res n s h hm)
    | some b =>
      simp only [collectUpcoming, hb] at h
      cases hadj : adjustBirthday today b with
      | none =>
        simp only [hadj] at h
        exact Option.noConfusion h
      | some adj =>
        simp only [hadj] at h
        cases hc : collectUpcoming today rest with
        | none =>
          simp only [hc] at h
          exact Option.noConfusion h
        | some res' =>
          simp only [hc] at h
          by_cases hw : withinWeek today adj = true
          · rw [if_pos hw] at h
            injection h with h
            rw [← h] at hm
            rcases List.mem_cons.mp hm with he | hm'
            · have : n = n' := congrArg Prod.fst he
              rw [this, List.map_cons]
              exact List.mem_cons_self _ _
            · exact List.mem_cons_of_mem _ (ih res' n s hc hm')
          · rw [if_neg hw] at h
            injection h with h
            rw [← h] at hm
            exact List.mem_cons_of_mem _ (ih res' n s hc hm)

theorem collectUpcoming_window (today : PyDate) :
    ∀ (l : List (String × Record)) (res : List (String × String)) (n : String)
      (r : Record) (b : PyDate),
      (l.map Prod.fst).Nodup → collectUpcoming today l = some res →
      (n, r) ∈ l → r.birthday = some b →
      ∃ adj, adjustBirthday today b = some adj ∧
        ((ordinal today ≤ ordinal adj ∧ ordinal adj ≤ ordinal today + 7) ↔
          ∃ s, (n, s) ∈ res) ∧
        ∀ s, (n, s) ∈ res → s = formatDMY adj := by
  intro l
  induction l with
  | nil =>
    intro res n r b _ _ hmem _
    cases hmem
  | cons nr rest ih =>
    obtain ⟨n', r'⟩ := nr
    intro res n r b hnd hres hmem hb
    simp only [List.map_cons, List.nodup_cons] at hnd
    rcases List.mem_cons.mp hmem with he | hmem'
    · have h1 : n = n' := congrArg Prod.fst he
      have h2 : r = r' := congrArg Prod.snd he
      subst h1
      subst h2
      simp only [collectUpcoming, hb] at hres
      cases hadj : adjustBirthday today b with
      | none =>
        simp only [hadj] at hres
        exact Option.noConfusion hres
      | some adj =>
        simp only [hadj] at hres
        cases hc : collectUpcoming today rest with
        | none =>
          simp only [hc] at hres
          exact Option.noConfusion hres
        | some res' =>
          simp only [hc] at hres
          refine ⟨adj, rfl, ?_, ?_⟩
          · constructor
            · intro hcond
              have hw : withinWeek today adj = true := by
                simp only [withinWeek, dateLe, Bool.and_eq_true, decide_eq_true_eq]
                exact ⟨hcond.1, hcond.2⟩
              rw [if_pos hw] at hres
              injection hres with hres
              refine ⟨formatDMY adj, ?_⟩
              rw [← hres]
              exact List.mem_cons_self _ _
            · rintro ⟨s, hs⟩
              by_contra hcond
              have hw : ¬withinWeek today adj = true := by
                simp only [withinWeek, dateLe, Bool.and_eq_true, decide_eq_true_eq]
                exact hcond
              rw [if_neg hw] at hres
              injection hres with hres
              rw [← hres] at hs
              exact hnd.1 (collectUpcoming_names today rest res' n s hc hs)
          · intro s hs
            by_cases hw : withinWeek today adj = true
            · rw [if_pos hw] at hres
              injection hres with hres
              rw [← hres] at hs
              rcases List.mem_cons.mp hs with he2 | hs'
              · exact congrArg Prod.snd he2
              · exact absurd (collectUpcoming_names today rest res' n s hc hs') hnd.1
            · rw [if_neg hw] at hres
              injection hres with hres
              rw [← hres] at hs
              exact absurd (collectUpcoming_names today rest res' n s hc hs) hnd.1
    · have hne : n ≠ n' := by
        intro e
        exact hnd.1 (e ▸ List.mem_map_of_mem Prod.fst hmem')
      cases hb' : r'.birthday with
      | none =>
        simp only [collectUpcoming, hb'] at hres
        exact ih res n r b hnd.2 hres hmem' hb
      | some b' =>
        simp only [collectUpcoming, hb'] at hres
        cases hadj' : adjustBirthday today b' with
        | none =>
          simp only [hadj'] at hres
          exact Option.noConfusion hres
        | some adj' =>
          simp only [hadj'] at hres
          cases hc : collectUpcoming today rest with
          | none =>
            simp only [hc] at hres
            exact Option.noConfusion hres
          | some res' =>
            simp only [hc] at hres
            obtain ⟨adj, ha, hiff, hfmt⟩ := ih res' n r b hnd.2 hc hmem' hb
            by_cases hw : withinWeek today adj' = true
            · rw [if_pos hw] at hres
              injection hres with hres
              subst hres
              refine ⟨adj, ha, ?_, ?_⟩
              · constructor
                · intro hcond
                  obtain ⟨s, hs⟩ := hiff.mp hcond
                  exact ⟨s, List.mem_cons_of_mem _ hs⟩
                · rintro ⟨s, hs⟩
                  rcases List.mem_cons.mp hs with he2 | hs'
                  · exact absurd (congrArg Prod.fst he2) hne
                  · exact hiff.mpr ⟨s, hs'⟩
              · intro s hs
                rcases List.mem_cons.mp hs with he2 | hs'
                · exact absurd (congrArg Prod.fst he2) hne
                · exact hfmt s hs'
            · rw [if_neg hw] at hres
              injection hres with hres
              subst hres
              exact ⟨adj, ha, hiff, hfmt⟩

/-- C2: whenever `get_upcoming_birthdays` returns a result, a record with
a birthday contributes an entry exactly when its adjusted birthday — the
birthday moved to this year, rolled forward one year if that date is
strictly before today — satisfies `today <= adjusted <= today + 7 days`,
both bounds inclusive (so a birthday exactly today or exactly today + 7
days is in, today + 8 days is out); the entry carries the adjusted date
formatted `DD.MM.YYYY`. -/
theorem get_upcoming_birthdays_window (bk : AddressBook) (today : PyDate)
    (res : List (String × String)) (n : String) (r : Record) (b : PyDate)
    (hnd : (bk.data.map Prod.fst).Nodup)
    (hres : get_upcoming_birthdays bk today = some res)
    (hmem : (n, r) ∈ bk.data) (hb : r.birthday = some b) :
    ∃ adj, adjustBirthday today b = some adj ∧
      ((ordinal today ≤ ordinal adj ∧ ordinal adj ≤ ordinal today + 7) ↔
        ∃ s, (n, s) ∈ res) ∧
      ∀ s, (n, s) ∈ res → s = formatDMY adj :=
  collectUpcoming_window today bk.data res n r b hnd hres hmem hb

theorem get_upcoming_birthdays_window_witness :
    ∃ adj, adjustBirthday ⟨2024, 6, 10⟩ ⟨1990, 6, 17⟩ = some adj ∧
      ((ordinal ⟨2024, 6, 10⟩ ≤ ordinal adj ∧
          ordinal adj ≤ ordinal ⟨2024, 6, 10⟩ + 7) ↔
        ∃ s, ("Ann", s) ∈ [("Ann", "17.06.2024")]) ∧
      ∀ s, ("Ann", s) ∈ [("Ann", "17.06.2024")] → s = formatDMY adj :=
  get_upcoming_birthdays_window ⟨[("Ann", ⟨"Ann", [], some ⟨1990, 6, 17⟩⟩)]⟩
    ⟨2024, 6, 10⟩ [("Ann", "17.06.2024")] "Ann" ⟨"Ann", [], some ⟨1990, 6, 17⟩⟩
    ⟨1990, 6, 17⟩ (by simp) rfl (by simp) rfl

end Task12
